import Mathlib

/-!
# Verification of the Ginkgo CSR partition-strategy engine and zip iterator

Shallow embedding of the strategy classes of
`include/ginkgo/core/matrix/csr.hpp` (`classical`, `load_balance`,
`automatical`) and — modelled from the spec, since only its test is in the
excerpt — the paired-sequence co-sorting (zip) iterator of
`core/base/iterator_factory.hpp`.

Machine integers (`int`, `int64_t`, `index_type`) are embedded as `Int`;
C++ integer division truncates toward zero, which is `Int.tdiv`.  A C++
division whose divisor may be zero (undefined behaviour) is embedded as an
`Option`-valued operation returning `none` on a zero divisor.
-/

namespace Ginkgo

/-- C++ `ceildiv(num, den) = (num + den - 1) / den` from ginkgo's math
helpers, for a nonzero divisor; C++ `/` on integers truncates toward
zero. -/
def ceildivI (num den : Int) : Int := (num + den - 1).tdiv den

/-- `ceildiv` as executed by the C++ program: division by zero is
undefined behaviour, embedded as `none`. -/
def ceildivOpt (num den : Int) : Option Int :=
  if den = 0 then none else some (ceildivI num den)

/-! ## `load_balance::clac_size`

```cpp
int64_t clac_size(const int64_t nnz)
{
    if (warp_size_ > 0) {
        int multiple = 8;
        if (nnz >= 2e6) {
            multiple = 128;
        } else if (nnz >= 2e5) {
            multiple = 32;
        }
        auto nwarps = nwarps_ * multiple;
        return min(ceildiv(nnz, warp_size_), int64_t(nwarps));
    } else {
        return 0;
    }
}
```
The `GINKGO_HIP_PLATFORM_HCC` block (alternate multiples for the second
device family) is not compiled on the primary platform, so `cuda_strategy_`
does not enter the computation; the parameter is kept for the class
layout. -/
def clac_size (nwarps : Int) (warp_size : Int) (nnz : Int) : Int :=
  if 0 < warp_size then
    let multiple : Int :=
      if 2000000 ≤ nnz then 128 else if 200000 ≤ nnz then 32 else 8
    min (ceildivI nnz warp_size) (nwarps * multiple)
  else 0

/-- The multiple as the spec words it: `8` if `nnz < 200_000`; `32` if
`200_000 ≤ nnz < 2_000_000`; `128` otherwise. -/
def specMultiple (nnz : Int) : Int :=
  if nnz < 200000 then 8 else if nnz < 2000000 then 32 else 128

/-! ## `load_balance::process`

```cpp
auto nwarps = mtx_srow->get_num_elems();
if (nwarps > 0) {
    ...
    for (size_type i = 0; i < nwarps; i++) { srow[i] = 0; }
    const auto num_rows = mtx_row_ptrs.get_num_elems() - 1;
    const auto num_elems = row_ptrs[num_rows];
    for (size_type i = 0; i < num_rows; i++) {
        auto bucket =
            ceildiv((ceildiv(row_ptrs[i + 1], warp_size_) * nwarps),
                    ceildiv(num_elems, warp_size_));
        if (bucket < nwarps) { srow[bucket]++; }
    }
    for (size_type i = 1; i < nwarps; i++) { srow[i] += srow[i - 1]; }
}
```
The local `nwarps` shadows the member `nwarps_`: it is the srow length `k`.
The executor staging (host copies) is the identity on the data and is not
modelled.  In `bucket < nwarps` the comparison is performed after the usual
arithmetic conversions against the unsigned `nwarps`, so a negative
`bucket` compares as a huge unsigned value and is skipped; the embedding
writes this as `0 ≤ bucket ∧ bucket < k`. -/

/-- `srow[bucket]++` on a list. -/
def incrAt (l : List Int) (i : Nat) : List Int := l.set i (l.getD i 0 + 1)

/-- One iteration of the bucket loop of `load_balance::process` for the
row-pointer entry `row_ptrs[i+1]`, with the divisions checked. -/
def lbStep (warp_size num_elems : Int) (k : Nat) (t : List Int)
    (rp1 : Int) : Option (List Int) := do
  let a ← ceildivOpt rp1 warp_size
  let d ← ceildivOpt num_elems warp_size
  let bucket ← ceildivOpt (a * (k : Int)) d
  pure (if 0 ≤ bucket ∧ bucket < (k : Int) then incrAt t bucket.toNat else t)

/-- One iteration of the bucket loop, in the case where no division by
zero occurs. -/
def lbStepP (warp_size num_elems : Int) (k : Nat) (t : List Int)
    (rp1 : Int) : List Int :=
  let bucket :=
    ceildivI (ceildivI rp1 warp_size * (k : Int)) (ceildivI num_elems warp_size)
  if 0 ≤ bucket ∧ bucket < (k : Int) then incrAt t bucket.toNat else t

/-- The in-place inclusive prefix sum `for i in 1..k-1: srow[i] += srow[i-1]`,
starting from an accumulator. -/
def runningSum (acc : Int) : List Int → List Int
  | [] => []
  | x :: xs => (acc + x) :: runningSum (acc + x) xs

/-- `load_balance::process`: zero the table, histogram the rows into
buckets, then prefix-sum.  Returns `none` when the C++ code would divide
by zero. -/
def lbProcess (warp_size : Int) (row_ptrs srow : List Int) :
    Option (List Int) :=
  let k := srow.length
  if k = 0 then some srow
  else
    let num_elems := row_ptrs.getD (row_ptrs.length - 1) 0
    match (row_ptrs.drop 1).foldlM (lbStep warp_size num_elems k)
        (List.replicate k 0) with
    | none => none
    | some hist => some (runningSum 0 hist)

/-! ## `automatical` -/

/-- The adjacent differences `row_ptrs[i] - row_ptrs[i-1]`, `i` from `1` to
`num_rows`, as traversed by the `maxnum` loop of `automatical::process`. -/
def adjDiffs : List Int → List Int
  | a :: b :: rest => (b - a) :: adjDiffs (b :: rest)
  | _ => []

/-- `maxnum` of `automatical::process`: fold of `max` over the per-row
counts, starting at `0`. -/
def maxRowNnz (row_ptrs : List Int) : Int := (adjDiffs row_ptrs).foldl max 0

/-- `automatical::process`.  Inside it the delegate is constructed as
`load_balance actual_strategy(nwarps_);`, i.e. with the defaulted
`warp_size = 32`; `classical::process` leaves the srow untouched.  The
returned string is the name the `automatical` object `set_name`s itself to
(the delegate's name). -/
def automaticalProcess (row_ptrs srow : List Int) :
    Option (List Int) × String :=
  let num_rows := row_ptrs.length - 1
  if 1000000 < row_ptrs.getD num_rows 0 then
    (lbProcess 32 row_ptrs srow, "load_balance")
  else if 64 < maxRowNnz row_ptrs then
    (lbProcess 32 row_ptrs srow, "load_balance")
  else
    (some srow, "classical")

/-- The `load_balance` strategy's constructor parameters
`(nwarps_, warp_size_, cuda_strategy_)`. -/
structure LoadBalanceParams where
  nwarps : Int
  warp_size : Int
  cuda_strategy : Bool
  deriving DecidableEq, Repr

/-- The C++ one-argument constructor call `load_balance(nwarps)`: the
remaining parameters take their default arguments
`warp_size = 32, cuda_strategy = true`. -/
def loadBalanceOfNwarps (nwarps : Int) : LoadBalanceParams :=
  ⟨nwarps, 32, true⟩

/-- The `automatical` strategy object: its constructor parameters plus its
mutable `name_` (set to `"automatical"` by the constructor). -/
structure AutoObj where
  nwarps : Int
  warp_size : Int
  cuda_strategy : Bool
  name : String
  deriving DecidableEq, Repr

/-- `automatical(nwarps, warp_size, cuda_strategy)`: the base-class
constructor sets `name_ = "automatical"`. -/
def autoMk (nwarps warp_size : Int) (cuda_strategy : Bool) : AutoObj :=
  ⟨nwarps, warp_size, cuda_strategy, "automatical"⟩

/-- The delegate that `automatical::process` constructs on its
load-balance paths: `load_balance actual_strategy(nwarps_);`. -/
def autoDelegate (a : AutoObj) : LoadBalanceParams :=
  loadBalanceOfNwarps a.nwarps

/-- Effect of `automatical::process` on the strategy object itself: every
branch ends in `this->set_name(actual_strategy.get_name())`, mutating
`name_` in place; the three constructor parameters are untouched. -/
def autoProcessUpd (a : AutoObj) (row_ptrs srow : List Int) : AutoObj :=
  { a with name := (automaticalProcess row_ptrs srow).2 }

/-- `automatical::clac_size` delegates to a freshly constructed
`load_balance(nwarps_, warp_size_, cuda_strategy_)`. -/
def autoClacSize (a : AutoObj) (nnz : Int) : Int :=
  clac_size a.nwarps a.warp_size nnz

/-! ## `Csr` store glue -/

/-- Length of `row_ptrs_` in the size-based constructor:
`row_ptrs_(exec, size[0] + (size[0] > 0))` — the comment in the source
says "avoid allocation for empty matrix". -/
def csrRowPtrsSize (rows : Nat) : Nat := rows + (if 0 < rows then 1 else 0)

/-- `make_srow` sizing for a store whose strategy is `automatical`:
`srow_.resize_and_reset(strategy_->clac_size(values_.get_num_elems()))`. -/
def autoSrowSize (a : AutoObj) (nnz : Int) : Int := autoClacSize a nnz

/-! ## Embedding helpers used by the proofs -/

/-- Boolean check that a row-offset table is non-decreasing. -/
def isNonDecr : List Int → Bool
  | [] => true
  | [_] => true
  | a :: b :: t => decide (a ≤ b) && isNonDecr (b :: t)

/-! ## Paired-sequence co-sorting (zip) iterator

The implementation file `core/base/iterator_factory.hpp` is not part of
the excerpt — only its test `core/test/base/iterator_factory.cpp` is — so
the iterator is modelled from the spec. -/

/-- Modelled from the spec: the missing `core/base/iterator_factory.hpp`
co-sorting view.  "Sorting the co-sorting view ascending" sorts the zipped
records, "ordered by the first array's value", and splits them back into
the two base arrays ("reorders every other array in lockstep"). -/
def cosort {β : Type} (A : List Int) (B : List β) : List Int × List β :=
  let s := (A.zip B).insertionSort (fun p q => p.1 ≤ q.1)
  (s.map Prod.fst, s.map Prod.snd)

/-- Modelled from the spec: a zip-iterator cursor is "constructed from m
base array cursors sharing one logical position"; `base` identifies the
base arrays it was derived from, `pos` is the logical position. -/
structure ZipIt where
  base : Nat
  pos : Int
  deriving DecidableEq, Repr

/-- Modelled from the spec: cursor difference; cursors "not derived from
the same base-array identity" must "fail loudly (abort/assert)", embedded
as `none` (debug build). -/
def ZipIt.sub (a b : ZipIt) : Option Int :=
  if a.base = b.base then some (a.pos - b.pos) else none

/-- Modelled from the spec: `<` on cursors, with the same-base check. -/
def ZipIt.ltOp (a b : ZipIt) : Option Bool :=
  if a.base = b.base then some (decide (a.pos < b.pos)) else none

/-- Modelled from the spec: `<=` on cursors, with the same-base check. -/
def ZipIt.leOp (a b : ZipIt) : Option Bool :=
  if a.base = b.base then some (decide (a.pos ≤ b.pos)) else none

/-- Modelled from the spec: `>` on cursors, with the same-base check. -/
def ZipIt.gtOp (a b : ZipIt) : Option Bool :=
  if a.base = b.base then some (decide (b.pos < a.pos)) else none

/-- Modelled from the spec: `>=` on cursors, with the same-base check. -/
def ZipIt.geOp (a b : ZipIt) : Option Bool :=
  if a.base = b.base then some (decide (b.pos ≤ a.pos)) else none

/-- Modelled from the spec: `==` on cursors, with the same-base check. -/
def ZipIt.eqOp (a b : ZipIt) : Option Bool :=
  if a.base = b.base then some (decide (a.pos = b.pos)) else none

/-- Modelled from the spec: `!=` on cursors, with the same-base check. -/
def ZipIt.neOp (a b : ZipIt) : Option Bool :=
  if a.base = b.base then some (decide (a.pos ≠ b.pos)) else none

/-! ## Helper lemmas -/

lemma ceildivI_pos {a b : Int} (ha : 0 < a) (hb : 0 < b) :
    0 < ceildivI a b := by
  unfold ceildivI
  rw [Int.tdiv_eq_ediv (by omega) (by omega)]
  rw [Int.lt_iff_add_one_le, zero_add, Int.le_ediv_iff_mul_le hb, one_mul]
  omega

lemma lbStep_eq_some (warp_size num_elems : Int) (k : Nat)
    (hws : warp_size ≠ 0) (hd : ceildivI num_elems warp_size ≠ 0)
    (t : List Int) (rp1 : Int) :
    lbStep warp_size num_elems k t rp1 =
      some (lbStepP warp_size num_elems k t rp1) := by
  simp [lbStep, lbStepP, ceildivOpt, hws, hd]

lemma foldlM_option_of_some {α β : Type} {f : β → α → Option β}
    {g : β → α → β} (h : ∀ t a, f t a = some (g t a)) :
    ∀ (l : List α) (t : β), l.foldlM f t = some (l.foldl g t) := by
  intro l
  induction l with
  | nil => intro t; simp
  | cons a l ih =>
    intro t
    rw [List.foldlM_cons, h t a, List.foldl_cons]
    simpa using ih (g t a)

lemma getD_nonneg_of_forall {l : List Int} (h : ∀ x ∈ l, 0 ≤ x) (i : Nat) :
    0 ≤ l.getD i 0 := by
  induction l generalizing i with
  | nil => simp [List.getD]
  | cons a t ih =>
    cases i with
    | zero => simpa using h a (by simp)
    | succ n =>
      simp only [List.getD_cons_succ]
      exact ih (fun x hx => h x (by simp [hx])) n

lemma incrAt_nonneg {l : List Int} (h : ∀ x ∈ l, 0 ≤ x) (i : Nat) :
    ∀ x ∈ incrAt l i, 0 ≤ x := by
  intro x hx
  rcases List.mem_or_eq_of_mem_set hx with h1 | rfl
  · exact h x h1
  · have := getD_nonneg_of_forall h i
    omega

lemma incrAt_length (l : List Int) (i : Nat) :
    (incrAt l i).length = l.length := by
  simp [incrAt]

lemma incrAt_sum (l : List Int) (i : Nat) :
    (incrAt l i).sum = l.sum + (if i < l.length then 1 else 0) := by
  induction l generalizing i with
  | nil => simp [incrAt]
  | cons a t ih =>
    cases i with
    | zero => simp [incrAt]; omega
    | succ n =>
      have hn := ih n
      simp only [incrAt, List.set_cons_succ, List.getD_cons_succ,
        List.sum_cons, List.length_cons] at *
      rw [hn]
      by_cases h : n < t.length
      · simp [h, Nat.succ_lt_succ h]; omega
      · have : ¬(n + 1 < t.length + 1) := by omega
        simp [h, this]

lemma lbStepP_length (warp_size num_elems : Int) (k : Nat) (t : List Int)
    (rp1 : Int) : (lbStepP warp_size num_elems k t rp1).length = t.length := by
  simp only [lbStepP]
  split
  · exact incrAt_length _ _
  · rfl

lemma lbStepP_nonneg (warp_size num_elems : Int) (k : Nat) {t : List Int}
    (h : ∀ x ∈ t, 0 ≤ x) (rp1 : Int) :
    ∀ x ∈ lbStepP warp_size num_elems k t rp1, 0 ≤ x := by
  simp only [lbStepP]
  split
  · exact incrAt_nonneg h _
  · exact h

lemma lbStepP_sum_le (warp_size num_elems : Int) (k : Nat) (t : List Int)
    (rp1 : Int) : (lbStepP warp_size num_elems k t rp1).sum ≤ t.sum + 1 := by
  simp only [lbStepP]
  split
  · rw [incrAt_sum]
    split <;> omega
  · omega

lemma foldHist (warp_size num_elems : Int) (k : Nat) :
    ∀ (rows : List Int) (t : List Int),
      (rows.foldl (lbStepP warp_size num_elems k) t).length = t.length ∧
      ((∀ x ∈ t, 0 ≤ x) →
        ∀ x ∈ rows.foldl (lbStepP warp_size num_elems k) t, 0 ≤ x) ∧
      (rows.foldl (lbStepP warp_size num_elems k) t).sum ≤
        t.sum + (rows.length : Int) := by
  intro rows
  induction rows with
  | nil => intro t; simp
  | cons r rows ih =>
    intro t
    rw [List.foldl_cons]
    obtain ⟨ih1, ih2, ih3⟩ := ih (lbStepP warp_size num_elems k t r)
    refine ⟨by rw [ih1, lbStepP_length],
      fun ht => ih2 (lbStepP_nonneg _ _ _ ht r), ?_⟩
    have h1 := lbStepP_sum_le warp_size num_elems k t r
    have h2 : ((r :: rows).length : Int) = (rows.length : Int) + 1 := by
      simp
    omega

lemma runningSum_length (acc : Int) (l : List Int) :
    (runningSum acc l).length = l.length := by
  induction l generalizing acc with
  | nil => rfl
  | cons x xs ih => simp [runningSum, ih]

lemma runningSum_adj (l : List Int) :
    ∀ (acc : Int), (∀ x ∈ l, 0 ≤ x) → ∀ j, j + 1 < l.length →
      (runningSum acc l).getD j 0 ≤ (runningSum acc l).getD (j + 1) 0 := by
  induction l with
  | nil => intro acc _ j hj; simp at hj
  | cons x xs ih =>
    intro acc h j hj
    cases j with
    | zero =>
      cases xs with
      | nil => simp at hj
      | cons y ys =>
        have hy : 0 ≤ y := h y (by simp)
        simp [runningSum]
        omega
    | succ n =>
      simp only [runningSum, List.getD_cons_succ]
      apply ih (acc + x) (fun z hz => h z (by simp [hz])) n
      simp only [List.length_cons] at hj
      omega

lemma runningSum_last (l : List Int) :
    ∀ acc, l ≠ [] →
      (runningSum acc l).getD (l.length - 1) 0 = acc + l.sum := by
  induction l with
  | nil => intro acc h; exact absurd rfl h
  | cons x xs ih =>
    intro acc _
    cases xs with
    | nil => simp [runningSum]
    | cons y ys =>
      have := ih (acc + x) (by simp)
      simp only [runningSum, List.length_cons, Nat.add_sub_cancel,
        List.getD_cons_succ, List.sum_cons] at *
      linarith [this]

lemma runningSum_replicate_zero :
    ∀ (n : Nat) (acc : Int),
      runningSum acc (List.replicate n 0) = List.replicate n acc := by
  intro n
  induction n with
  | zero => intro acc; rfl
  | succ m ih =>
    intro acc
    simp only [List.replicate_succ, runningSum, add_zero, ih]

lemma zip_of_maps {α β : Type} (l : List (α × β)) :
    (l.map Prod.fst).zip (l.map Prod.snd) = l := by
  induction l with
  | nil => rfl
  | cons a t ih => simp [ih]

/-! ## Claim theorems -/

/-- Claim C1: for the `load_balance` strategy with warp size `w` and warp
count `g`, `clac_size(nnz) = min(ceildiv(nnz, w), g * multiple)` whenever
`w > 0`, where the multiple is `8` for `nnz < 200000`, `32` for
`200000 ≤ nnz < 2000000` and `128` otherwise; and `clac_size(nnz) = 0`
whenever `w ≤ 0`. -/
theorem clac_size_matches_spec (nwarps warp_size nnz : Int) :
    (0 < warp_size →
      clac_size nwarps warp_size nnz =
        min (ceildivI nnz warp_size) (nwarps * specMultiple nnz)) ∧
    (warp_size ≤ 0 → clac_size nwarps warp_size nnz = 0) := by
  constructor
  · intro h
    have hm : (if (2000000 : Int) ≤ nnz then (128 : Int)
        else if 200000 ≤ nnz then 32 else 8) = specMultiple nnz := by
      unfold specMultiple
      split_ifs <;> omega
    simp only [clac_size, if_pos h]
    rw [hm]
  · intro h
    have h' : ¬(0 < warp_size) := by omega
    simp only [clac_size, if_neg h']

/-- Witness for C1 at `g = 3`, `w = 32`, `nnz = 300000` (and the
degenerate case at `w = 0`). -/
theorem clac_size_matches_spec_witness :
    clac_size 3 32 300000 = min (ceildivI 300000 32) (3 * specMultiple 300000) ∧
    clac_size 3 0 300000 = 0 :=
  ⟨(clac_size_matches_spec 3 32 300000).1 (by decide),
   (clac_size_matches_spec 3 0 300000).2 (by decide)⟩

/-- Claim C2: `automatical::process` delegates to the `load_balance` build
when the total nonzero count exceeds `1000000`, or else when the maximum
per-row nonzero count exceeds `64`, and otherwise to the `classical`
no-op build; the name that `automatical` takes afterwards is the selected
delegate's name. -/
theorem automatical_process_selection (row_ptrs srow : List Int) :
    (automaticalProcess row_ptrs srow =
      if 1000000 < row_ptrs.getD (row_ptrs.length - 1) 0 ∨
          64 < maxRowNnz row_ptrs
      then (lbProcess 32 row_ptrs srow, "load_balance")
      else (some srow, "classical")) ∧
    ∀ a : AutoObj, (autoProcessUpd a row_ptrs srow).name =
      (automaticalProcess row_ptrs srow).2 := by
  refine ⟨?_, fun a => rfl⟩
  by_cases h1 : 1000000 < row_ptrs.getD (row_ptrs.length - 1) 0 <;>
    by_cases h2 : 64 < maxRowNnz row_ptrs <;>
      simp [automaticalProcess, h1, h2]

/-- Claim C3: after a successful `load_balance::process` on a valid
row-offset table with a nonempty srow and a positive total nonzero count,
the table is non-decreasing and its last entry is at most the row
count. -/
theorem lbProcess_table_monotone (warp_size : Int) (row_ptrs srow : List Int)
    (hws : 0 < warp_size) (hne : row_ptrs ≠ [])
    (hhead : row_ptrs.headD 0 = 0) (hmono : isNonDecr row_ptrs = true)
    (hnnz : 0 < row_ptrs.getD (row_ptrs.length - 1) 0)
    (hk : srow ≠ []) :
    ∃ table, lbProcess warp_size row_ptrs srow = some table ∧
      table.length = srow.length ∧
      (∀ j, j + 1 < table.length →
        table.getD j 0 ≤ table.getD (j + 1) 0) ∧
      table.getD (table.length - 1) 0 ≤ ((row_ptrs.length - 1 : Nat) : Int) := by
  have hk' : srow.length ≠ 0 := by
    simpa [List.length_eq_zero] using hk
  have hws' : warp_size ≠ 0 := by omega
  have hd : ceildivI (row_ptrs.getD (row_ptrs.length - 1) 0) warp_size ≠ 0 :=
    ne_of_gt (ceildivI_pos hnnz hws)
  have hfold := foldlM_option_of_some
    (lbStep_eq_some warp_size (row_ptrs.getD (row_ptrs.length - 1) 0)
      srow.length hws' hd) (row_ptrs.drop 1) (List.replicate srow.length 0)
  refine ⟨runningSum 0 ((row_ptrs.drop 1).foldl
    (lbStepP warp_size (row_ptrs.getD (row_ptrs.length - 1) 0) srow.length)
    (List.replicate srow.length 0)), ?_, ?_, ?_, ?_⟩
  · unfold lbProcess
    rw [if_neg hk']
    dsimp only
    rw [hfold]
  · obtain ⟨h1, _, _⟩ := foldHist warp_size
      (row_ptrs.getD (row_ptrs.length - 1) 0) srow.length (row_ptrs.drop 1)
      (List.replicate srow.length 0)
    rw [runningSum_length, h1, List.length_replicate]
  · obtain ⟨h1, h2, _⟩ := foldHist warp_size
      (row_ptrs.getD (row_ptrs.length - 1) 0) srow.length (row_ptrs.drop 1)
      (List.replicate srow.length 0)
    intro j hj
    apply runningSum_adj _ 0
      (h2 (fun x hx => by simp [List.eq_of_mem_replicate hx])) j
    rwa [runningSum_length] at hj
  · obtain ⟨h1, _, h3⟩ := foldHist warp_size
      (row_ptrs.getD (row_ptrs.length - 1) 0) srow.length (row_ptrs.drop 1)
      (List.replicate srow.length 0)
    have hfoldne : (row_ptrs.drop 1).foldl
        (lbStepP warp_size (row_ptrs.getD (row_ptrs.length - 1) 0)
          srow.length) (List.replicate srow.length 0) ≠ [] := by
      intro hcon
      rw [hcon] at h1
      simp at h1
      exact hk' h1.symm
    have hlast := runningSum_last _ 0 hfoldne
    rw [runningSum_length, hlast]
    have hdroplen : ((row_ptrs.drop 1).length : Int) =
        ((row_ptrs.length - 1 : Nat) : Int) := by
      rw [List.length_drop]
    have hrepsum : (List.replicate srow.length (0 : Int)).sum = 0 := by simp
    rw [hrepsum] at h3
    omega

/-- Witness for C3 at `warp_size = 32`, `row_ptrs = [0, 2, 4]`,
`srow = [7, 7]`. -/
theorem lbProcess_table_monotone_witness :
    ∃ table, lbProcess 32 [0, 2, 4] [7, 7] = some table ∧
      table.length = ([7, 7] : List Int).length ∧
      (∀ j, j + 1 < table.length →
        table.getD j 0 ≤ table.getD (j + 1) 0) ∧
      table.getD (table.length - 1) 0 ≤
        ((([0, 2, 4] : List Int).length - 1 : Nat) : Int) :=
  lbProcess_table_monotone 32 [0, 2, 4] [7, 7] (by decide) (by decide)
    (by decide) (by decide) (by decide) (by decide)

/-- Counterexample to claim C4: on the valid one-row table `[0, 0]` with
total nonzero count `0` and partition-table length `1 > 0`,
`load_balance::process` divides by zero (`ceildiv(num_elems, warp_size)`
evaluates to `0`), so the build fails instead of leaving the table
all-zero. -/
theorem lbProcess_zero_nnz_fails : lbProcess 32 [0, 0] [0] = none := by decide

/-- Claim C4 as amended: with total nonzero count `0`, only a table with
zero rows (`row_ptrs = [0]`) is tolerated: there the build succeeds and
leaves the partition table all-zero (for any warp size and table length);
for one or more rows and a nonempty table the bucket computation divides
by zero. -/
theorem lbProcess_zero_rows_all_zero (warp_size : Int) (srow : List Int) :
    lbProcess warp_size [0] srow = some (List.replicate srow.length 0) := by
  by_cases hk : srow.length = 0
  · have hnil : srow = [] := List.length_eq_zero.mp hk
    subst hnil
    rfl
  · unfold lbProcess
    rw [if_neg hk]
    simp [runningSum_replicate_zero]

/-- Counterexample to claim C5: for `rows = 4`, uniform row lengths and
`nnz = 64` the adaptive strategy does select the uniform (`classical`)
build, but the partition table allocated by `make_srow` has size
`automatical::clac_size(64) = 2 ≠ 0` (here for `nwarps = 1`,
`warp_size = 32`). -/
theorem auto_small_nnz_srow_not_zero :
    (automaticalProcess [0, 16, 32, 48, 64] [0, 0]).2 = "classical" ∧
    autoSrowSize (autoMk 1 32 true) 64 ≠ 0 := by decide

/-- Claim C5 as amended: for `rows = 4`, uniform row lengths and
`nnz = 64` the adaptive strategy selects `classical`, and for the same
row count with one row holding all `100` nonzeros it selects
`load_balance`; but the srow allocated for the adaptive strategy has size
`automatical::clac_size(nnz)` — `2` for `nnz = 64`, `nwarps = 1`,
`warp_size = 32` — not `0`, since sizing always delegates to the
`load_balance` sizing. -/
theorem auto_selection_and_srow_size :
    (automaticalProcess [0, 16, 32, 48, 64] [0, 0]).2 = "classical" ∧
    (automaticalProcess [0, 100, 100, 100, 100] [0, 0]).2 = "load_balance" ∧
    autoSrowSize (autoMk 1 32 true) 64 = 2 := by decide

/-- Counterexample to claim C6: an `automatical` strategy with
`nwarps = 4`, `warp_size = 64`, `cuda_strategy = false` constructs its
`load_balance` delegate with `warp_size = 32` and `cuda_strategy = true`
(the defaulted constructor arguments), not with its own parameters. -/
theorem autoDelegate_not_own_params :
    autoDelegate (autoMk 4 64 false) ≠
      ⟨(autoMk 4 64 false).nwarps, (autoMk 4 64 false).warp_size,
        (autoMk 4 64 false).cuda_strategy⟩ := by decide

/-- Claim C6 as amended: the delegate constructed by
`automatical::process` carries only the adaptive strategy's warp count;
its warp size and device-family flag are the constructor defaults `32`
and `true`.  (The `automatical` object itself keeps its own parameters
and only adopts the delegate's name.) -/
theorem autoDelegate_default_width_flag (a : AutoObj) :
    autoDelegate a = ⟨a.nwarps, 32, true⟩ := rfl

/-- Claim C7: sorting the co-sorting view over `A = [3, 1, 2]` and
`B = ['x', 'y', 'z']` ascending yields `A' = [1, 2, 3]` and
`B' = ['y', 'z', 'x']`; in general the view sorts by the first array's
values and reorders the second array in lockstep (the zipped result is a
permutation of the zipped input). -/
theorem cosort_sorts_by_first_array :
    cosort [3, 1, 2] ['x', 'y', 'z'] = ([1, 2, 3], ['y', 'z', 'x']) ∧
    ∀ (β : Type) (A : List Int) (B : List β),
      List.Sorted (· ≤ ·) (cosort A B).1 ∧
      ((cosort A B).1.zip (cosort A B).2).Perm (A.zip B) := by
  refine ⟨by decide, fun β A B => ⟨?_, ?_⟩⟩
  · haveI : IsTotal (Int × β) (fun p q => p.1 ≤ q.1) :=
      ⟨fun a b => le_total a.1 b.1⟩
    haveI : IsTrans (Int × β) (fun p q => p.1 ≤ q.1) :=
      ⟨fun a b c hab hbc => le_trans hab hbc⟩
    have hs := List.sorted_insertionSort
      (fun p q : Int × β => p.1 ≤ q.1) (A.zip B)
    show List.Sorted (· ≤ ·)
      (((A.zip B).insertionSort (fun p q => p.1 ≤ q.1)).map Prod.fst)
    rw [List.Sorted, List.pairwise_map]
    exact hs
  · have hp := List.perm_insertionSort
      (fun p q : Int × β => p.1 ≤ q.1) (A.zip B)
    unfold cosort
    rw [zip_of_maps]
    exact hp

/-- Claim C8: for two zip-iterator cursors over the same base arrays at
positions `i` and `j`, the difference equals `j - i` and each comparison
operator agrees with the sign of that difference; for cursors over
different base arrays, each arithmetic or comparison operation fails
(debug-build assertion) instead of returning a result. -/
theorem zip_cursor_diff_compare (b b1 b2 : Nat) (i j : Int) :
    ZipIt.sub ⟨b, j⟩ ⟨b, i⟩ = some (j - i) ∧
    (ZipIt.ltOp ⟨b, i⟩ ⟨b, j⟩ = some true ↔ 0 < j - i) ∧
    (ZipIt.leOp ⟨b, i⟩ ⟨b, j⟩ = some true ↔ 0 ≤ j - i) ∧
    (ZipIt.gtOp ⟨b, i⟩ ⟨b, j⟩ = some true ↔ j - i < 0) ∧
    (ZipIt.geOp ⟨b, i⟩ ⟨b, j⟩ = some true ↔ j - i ≤ 0) ∧
    (ZipIt.eqOp ⟨b, i⟩ ⟨b, j⟩ = some true ↔ j - i = 0) ∧
    (ZipIt.neOp ⟨b, i⟩ ⟨b, j⟩ = some true ↔ j - i ≠ 0) ∧
    (b1 ≠ b2 →
      ZipIt.sub ⟨b1, i⟩ ⟨b2, j⟩ = none ∧
      ZipIt.ltOp ⟨b1, i⟩ ⟨b2, j⟩ = none ∧
      ZipIt.leOp ⟨b1, i⟩ ⟨b2, j⟩ = none ∧
      ZipIt.gtOp ⟨b1, i⟩ ⟨b2, j⟩ = none ∧
      ZipIt.geOp ⟨b1, i⟩ ⟨b2, j⟩ = none ∧
      ZipIt.eqOp ⟨b1, i⟩ ⟨b2, j⟩ = none ∧
      ZipIt.neOp ⟨b1, i⟩ ⟨b2, j⟩ = none) := by
  refine ⟨by simp [ZipIt.sub], ?_, ?_, ?_, ?_, ?_, ?_, ?_⟩
  · simp [ZipIt.ltOp]
  · simp [ZipIt.leOp]
  · simp [ZipIt.gtOp]
  · simp [ZipIt.geOp]
  · simp [ZipIt.eqOp]
    omega
  · simp [ZipIt.neOp]
    omega
  · intro hbb
    refine ⟨?_, ?_, ?_, ?_, ?_, ?_, ?_⟩ <;>
      simp [ZipIt.sub, ZipIt.ltOp, ZipIt.leOp, ZipIt.gtOp, ZipIt.geOp,
        ZipIt.eqOp, ZipIt.neOp, hbb]

/-- Witness for C8: same base arrays at positions `1` and `3`, and
cursors over different base arrays `0 ≠ 1`. -/
theorem zip_cursor_diff_compare_witness :
    ZipIt.sub ⟨0, 3⟩ ⟨0, 1⟩ = some (3 - 1) ∧
    ZipIt.sub ⟨0, 1⟩ ⟨1, 3⟩ = none := by
  have h := zip_cursor_diff_compare 0 0 1 1 3
  exact ⟨h.1, (h.2.2.2.2.2.2.2 (by decide)).1⟩

/-- Counterexample to claim C9: the size-based `Csr` constructor
allocates `row_ptrs_` with `size[0] + (size[0] > 0)` elements, so for
`rows = 0` the row-pointer array has length `0`, not `rows + 1 = 1`. -/
theorem csr_row_ptrs_size_zero_rows : csrRowPtrsSize 0 ≠ 0 + 1 := by decide

/-- Claim C9 as amended: the size-based constructor allocates the
row-pointer array with `rows + 1` entries whenever `rows > 0`, and with
`0` entries for `rows = 0` (allocation is avoided for the empty
matrix). -/
theorem csr_row_ptrs_size_pos_rows (rows : Nat) :
    (0 < rows → csrRowPtrsSize rows = rows + 1) ∧ csrRowPtrsSize 0 = 0 := by
  constructor
  · intro h
    simp [csrRowPtrsSize, h]
  · rfl

/-- Witness for C9 (amended) at `rows = 4`. -/
theorem csr_row_ptrs_size_pos_rows_witness :
    csrRowPtrsSize 4 = 4 + 1 ∧ csrRowPtrsSize 0 = 0 :=
  ⟨(csr_row_ptrs_size_pos_rows 4).1 (by decide),
   (csr_row_ptrs_size_pos_rows 0).2⟩

/-- Counterexample to claim C10: invoking `automatical::process` mutates
the strategy instance in place — on a row table with more than `1000000`
nonzeros it `set_name`s itself to `"load_balance"`, so its observable
state changes. -/
theorem automatical_process_mutates_name :
    autoProcessUpd (autoMk 4 32 true) [0, 2000000] [] ≠
      autoMk 4 32 true := by decide

/-- Claim C10 as amended: `automatical::process` leaves the strategy's
device parameters unchanged, but mutates the shared instance's name in
place to the selected delegate's name; the name is therefore the only
observable state changed by `process`. -/
theorem automatical_process_frame (a : AutoObj) (row_ptrs srow : List Int) :
    (autoProcessUpd a row_ptrs srow).nwarps = a.nwarps ∧
    (autoProcessUpd a row_ptrs srow).warp_size = a.warp_size ∧
    (autoProcessUpd a row_ptrs srow).cuda_strategy = a.cuda_strategy ∧
    (autoProcessUpd a row_ptrs srow).name =
      (automaticalProcess row_ptrs srow).2 :=
  ⟨rfl, rfl, rfl, rfl⟩

end Ginkgo
